import Mathlib

set_option maxRecDepth 4000

/-!
Verification development for the `mcp-server-post-x` repository (Rust).

The definitions below are a shallow embedding of `src/api.rs` and
`src/server.rs`.  Machine strings are modelled as Lean `String`s; where the
Rust code operates on the UTF-8 bytes of a string (percent-encoding, the
`BTreeMap<String, _>` key order, `starts_with`), we work with the explicit
UTF-8 byte sequence (`strBytes`), whose order and equality coincide with
Rust's byte-wise `Ord`/`Eq` on `String`.  External collaborators (the HTTP
client, the filesystem, the HMAC-SHA1/base64 primitives from the `hmac`,
`sha1` and `base64` crates, the system clock and the randomness source) are
passed in as explicit oracle parameters, so that "no network call happens"
is expressed as independence of the result from the oracle.
-/

/-- UTF-8 encoding of a single unicode scalar value, as its list of bytes. -/
def charUtf8 (c : Char) : List Nat :=
  let n := c.toNat
  if n < 128 then [n]
  else if n < 2048 then [192 + n / 64, 128 + n % 64]
  else if n < 65536 then [224 + n / 4096, 128 + n / 64 % 64, 128 + n % 64]
  else [240 + n / 262144, 128 + n / 4096 % 64, 128 + n / 64 % 64, 128 + n % 64]

/-- The UTF-8 byte sequence of a string (Rust `str::bytes`). -/
def strBytes (s : String) : List Nat :=
  s.data.flatMap charUtf8

/-- Lexicographic order on byte sequences: Rust's `Ord` for `[u8]`, hence for
`String` (which compares UTF-8 bytes). -/
def bytesLt : List Nat → List Nat → Bool
  | _, [] => false
  | [], _ :: _ => true
  | a :: as, b :: bs => if a < b then true else if a = b then bytesLt as bs else false

/-- Rust `String` comparison used by `BTreeMap<String, _>`. -/
def strLtB (a b : String) : Bool :=
  bytesLt (strBytes a) (strBytes b)

/-- Rust `String` equality (byte-wise). -/
def strEqB (a b : String) : Bool :=
  strBytes a == strBytes b

/-- Does the byte sequence `s` begin with the byte sequence `pat`? -/
def bytesLead : List Nat → List Nat → Bool
  | [], _ => true
  | _ :: _, [] => false
  | a :: as, b :: bs => a == b && bytesLead as bs

/-- Rust `str::starts_with` on the UTF-8 bytes. -/
def strStartsWithB (s pat : String) : Bool :=
  bytesLead (strBytes pat) (strBytes s)

/-- Does `l` begin with `sub`? (char-level helper for substring search) -/
def charsLead : List Char → List Char → Bool
  | [], _ => true
  | _ :: _, [] => false
  | a :: as, b :: bs => a == b && charsLead as bs

/-- Does `sub` occur as a contiguous run inside `l`? -/
def charsHaveSub (sub : List Char) : List Char → Bool
  | [] => sub.isEmpty
  | c :: cs => charsLead sub (c :: cs) || charsHaveSub sub cs

/-- Does the string `sub` occur as a contiguous substring of `s`? -/
def strContainsSub (s sub : String) : Bool :=
  charsHaveSub sub.data s.data

/-- Uppercase hexadecimal digit for a value below 16. -/
def hexUpper (n : Nat) : Char :=
  if n < 10 then Char.ofNat (48 + n) else Char.ofNat (55 + n)

/-- The ASCII bytes explicitly added to the `RFC3986` `AsciiSet` in
`src/api.rs` (space and `! # $ % & ' ( ) * + , / : ; = ? @ [ ]`). -/
def rfc3986Added : List Nat :=
  [32, 33, 35, 36, 37, 38, 39, 40, 41, 42, 43, 44, 47, 58, 59, 61, 63, 64, 91, 93]

/-- Which bytes `percent_encoding::utf8_percent_encode` escapes for the
`RFC3986` set of `src/api.rs`: every non-ASCII byte, every C0 control byte
and DEL (the crate's `CONTROLS` base set), and the bytes listed in
`rfc3986Added`. -/
def shouldPctEncode (b : Nat) : Bool :=
  128 ≤ b || b < 32 || b == 127 || rfc3986Added.contains b

/-- RFC 3986 unreserved bytes: ASCII letters, digits, `-`, `.`, `_`, `~`. -/
def isUnreservedByte (b : Nat) : Bool :=
  (65 ≤ b && b ≤ 90) || (97 ≤ b && b ≤ 122) || (48 ≤ b && b ≤ 57) ||
    b == 45 || b == 46 || b == 95 || b == 126

/-- Output of the percent encoder for one input byte. -/
def pctEncodeByte (b : Nat) : List Char :=
  if shouldPctEncode b then ['%', hexUpper (b / 16), hexUpper (b % 16)]
  else [Char.ofNat b]

/-- Percent-encode a byte sequence. -/
def pctEncodeBytes (bs : List Nat) : List Char :=
  bs.flatMap pctEncodeByte

/-- The `pct_encode` helper of `src/api.rs`:
`utf8_percent_encode(input, RFC3986).to_string()`. -/
def pct_encode (s : String) : String :=
  String.mk (pctEncodeBytes (strBytes s))

/-- C1: the spec claims that for every input string, `pct_encode` leaves
exactly the unreserved bytes unescaped and emits every other byte as a `%XX`
escape.  The code violates this: the byte 0x22 (the double-quote character)
is neither unreserved nor in the code's `RFC3986` set, so it passes through
unencoded instead of appearing as `%22`.  The same holds for the bytes of
`< > \ ^ ` { | }` (0x3C, 0x3E, 0x5C, 0x5E, 0x60, 0x7B, 0x7C, 0x7D). -/
theorem pct_encode_leaves_quote_unencoded :
    pct_encode "\"" = "\"" ∧ isUnreservedByte 34 = false ∧
      shouldPctEncode 34 = false ∧ strBytes "\"" = [34] := by
  decide

/-- Insertion into a key-sorted association list: the behaviour of
`BTreeMap::insert` on the map's sorted entry sequence (byte-wise key order,
last write wins on an existing key). -/
def mapInsert (k v : String) : List (String × String) → List (String × String)
  | [] => [(k, v)]
  | (k2, v2) :: rest =>
    if strLtB k k2 then (k, v) :: (k2, v2) :: rest
    else if strEqB k k2 then (k, v) :: rest
    else (k2, v2) :: mapInsert k v rest

/-- Insert a sequence of key-value pairs, in order, into a map. -/
def mapInsertAll (m : List (String × String)) (l : List (String × String)) :
    List (String × String) :=
  l.foldl (fun acc kv => mapInsert kv.1 kv.2 acc) m

/-- The map obtained by inserting the pairs of `l`, in order, into an empty
`BTreeMap`. -/
def buildMap (l : List (String × String)) : List (String × String) :=
  mapInsertAll [] l

/-- Strict byte-wise key order on map entries. -/
def keyLt (p q : String × String) : Prop :=
  strLtB p.1 q.1 = true

theorem bytesLt_irrefl (a : List Nat) : bytesLt a a = false := by
  induction a with
  | nil => rfl
  | cons x xs ih => simp [bytesLt, ih]

theorem bytesLt_ne {a b : List Nat} (h : bytesLt a b = true) : a ≠ b := by
  intro he
  subst he
  simp [bytesLt_irrefl] at h

theorem bytesLt_trans {a : List Nat} :
    ∀ {b c : List Nat}, bytesLt a b = true → bytesLt b c = true → bytesLt a c = true := by
  induction a with
  | nil =>
    intro b c h1 h2
    cases b with
    | nil => simp [bytesLt] at h1
    | cons y ys =>
      cases c with
      | nil => simp [bytesLt] at h2
      | cons z zs => simp [bytesLt]
  | cons x xs ih =>
    intro b c h1 h2
    cases b with
    | nil => simp [bytesLt] at h1
    | cons y ys =>
      cases c with
      | nil => simp [bytesLt] at h2
      | cons z zs =>
        simp only [bytesLt] at h1 h2 ⊢
        by_cases hxy : x < y
        · by_cases hyz : y < z
          · simp [Nat.lt_trans hxy hyz]
          · by_cases hyz2 : y = z
            · subst hyz2
              simp [hxy]
            · simp [hyz, hyz2] at h2
        · by_cases hxy2 : x = y
          · subst hxy2
            by_cases hxz : x < z
            · simp [hxz]
            · by_cases hxz2 : x = z
              · subst hxz2
                simp only [if_neg hxy, if_pos rfl] at h1 h2 ⊢
                exact ih h1 h2
              · simp [hxz, hxz2] at h2
          · simp [hxy, hxy2] at h1

theorem bytesLt_asymm {a : List Nat} :
    ∀ {b : List Nat}, bytesLt a b = true → bytesLt b a = false := by
  induction a with
  | nil =>
    intro b h
    cases b with
    | nil => simp [bytesLt] at h
    | cons y ys => simp [bytesLt]
  | cons x xs ih =>
    intro b h
    cases b with
    | nil => simp [bytesLt] at h
    | cons y ys =>
      simp only [bytesLt] at h ⊢
      by_cases hxy : x < y
      · have hyx : ¬ y < x := by omega
        have hyx2 : ¬ y = x := by omega
        simp [hyx, hyx2]
      · by_cases hxy2 : x = y
        · subst hxy2
          simp only [if_neg hxy, if_pos rfl] at h
          simp [Nat.lt_irrefl, ih h]
        · simp [hxy, hxy2] at h

theorem bytesLt_total {a : List Nat} :
    ∀ {b : List Nat}, bytesLt a b = false → a ≠ b → bytesLt b a = true := by
  induction a with
  | nil =>
    intro b h1 h2
    cases b with
    | nil => exact absurd rfl h2
    | cons y ys => simp [bytesLt] at h1
  | cons x xs ih =>
    intro b h1 h2
    cases b with
    | nil => simp [bytesLt]
    | cons y ys =>
      simp only [bytesLt] at h1 ⊢
      by_cases hxy : x < y
      · simp [hxy] at h1
      · by_cases hxy2 : x = y
        · subst hxy2
          simp only [if_neg hxy, if_pos rfl] at h1 ⊢
          have hne : xs ≠ ys := by
            intro he
            exact h2 (by rw [he])
          simp [Nat.lt_irrefl, ih h1 hne]
        · have hyx : y < x := by omega
          simp [hyx]

theorem strLtB_trans {a b c : String} (h1 : strLtB a b = true) (h2 : strLtB b c = true) :
    strLtB a c = true :=
  bytesLt_trans h1 h2

theorem strLtB_asymm {a b : String} (h : strLtB a b = true) : strLtB b a = false :=
  bytesLt_asymm h

theorem strLtB_irrefl (a : String) : strLtB a a = false :=
  bytesLt_irrefl _

theorem strEqB_bytes {a b : String} (h : strEqB a b = true) : strBytes a = strBytes b := by
  simpa [strEqB] using h

theorem strEqB_symm_false {a b : String} (h : strEqB a b = false) : strEqB b a = false := by
  simp only [strEqB, beq_eq_false_iff_ne, ne_eq] at h ⊢
  exact fun he => h he.symm

theorem strEqB_symm_true {a b : String} (h : strEqB a b = true) : strEqB b a = true := by
  simp only [strEqB, beq_iff_eq] at h ⊢
  exact h.symm

theorem strEqB_false_of_lt {a b : String} (h : strLtB a b = true) : strEqB a b = false := by
  simp only [strEqB, beq_eq_false_iff_ne, ne_eq]
  exact bytesLt_ne h

theorem strLtB_of_not_lt_not_eq {a b : String} (h1 : strLtB a b = false)
    (h2 : strEqB a b = false) : strLtB b a = true := by
  simp only [strEqB, beq_eq_false_iff_ne, ne_eq] at h2
  exact bytesLt_total h1 h2

theorem strLtB_congr_left {a a2 b : String} (h : strBytes a = strBytes a2) :
    strLtB a b = strLtB a2 b := by
  simp [strLtB, h]

theorem strEqB_congr_left {a a2 b : String} (h : strBytes a = strBytes a2) :
    strEqB a b = strEqB a2 b := by
  simp [strEqB, h]

theorem mapInsert_eq_cons {k v : String} :
    ∀ {m : List (String × String)}, (∀ x ∈ m, strLtB k x.1 = true) →
      mapInsert k v m = (k, v) :: m := by
  intro m h
  cases m with
  | nil => rfl
  | cons kv2 rest =>
    obtain ⟨k2, v2⟩ := kv2
    have hh := h (k2, v2) (List.mem_cons_self _ _)
    simp [mapInsert, hh]

theorem mem_mapInsert {k v : String} {x : String × String} :
    ∀ {m : List (String × String)}, List.Pairwise keyLt m →
      (x ∈ mapInsert k v m ↔ (x = (k, v) ∨ (x ∈ m ∧ strEqB x.1 k = false))) := by
  intro m hp
  induction m with
  | nil => simp [mapInsert]
  | cons kv2 rest ih =>
    obtain ⟨k2, v2⟩ := kv2
    obtain ⟨h1, h2⟩ := List.pairwise_cons.mp hp
    cases hlt : strLtB k k2 with
    | true =>
      simp only [mapInsert, hlt, if_true]
      constructor
      · intro hx
        rcases List.mem_cons.mp hx with h3 | hx2
        · exact Or.inl h3
        · refine Or.inr ⟨hx2, ?_⟩
          rcases List.mem_cons.mp hx2 with h3 | h4
          · rw [h3]
            exact strEqB_symm_false (strEqB_false_of_lt hlt)
          · have hk2x : strLtB k2 x.1 = true := h1 x h4
            exact strEqB_symm_false (strEqB_false_of_lt (strLtB_trans hlt hk2x))
      · intro hx
        rcases hx with h3 | ⟨hmem, _⟩
        · exact List.mem_cons.mpr (Or.inl h3)
        · exact List.mem_cons.mpr (Or.inr hmem)
    | false =>
      cases heq : strEqB k k2 with
      | true =>
        simp only [mapInsert, hlt, heq, if_true, if_false, Bool.false_eq_true]
        have hbytes : strBytes k = strBytes k2 := strEqB_bytes heq
        constructor
        · intro hx
          rcases List.mem_cons.mp hx with h3 | h4
          · exact Or.inl h3
          · refine Or.inr ⟨List.mem_cons.mpr (Or.inr h4), ?_⟩
            have hk2x : strLtB k2 x.1 = true := h1 x h4
            have hkx : strLtB k x.1 = true := by
              rw [strLtB_congr_left hbytes]
              exact hk2x
            exact strEqB_symm_false (strEqB_false_of_lt hkx)
        · intro hx
          rcases hx with h3 | ⟨hmem, hne⟩
          · exact List.mem_cons.mpr (Or.inl h3)
          · rcases List.mem_cons.mp hmem with h4 | h5
            · exfalso
              have hx1 : strEqB x.1 k = true := by
                rw [h4]
                exact strEqB_symm_true heq
              rw [hx1] at hne
              exact Bool.noConfusion hne
            · exact List.mem_cons.mpr (Or.inr h5)
      | false =>
        simp only [mapInsert, hlt, heq, if_false, Bool.false_eq_true]
        have hgt : strLtB k2 k = true := strLtB_of_not_lt_not_eq hlt heq
        constructor
        · intro hx
          rcases List.mem_cons.mp hx with h3 | h4
          · refine Or.inr ⟨List.mem_cons.mpr (Or.inl h3), ?_⟩
            rw [h3]
            exact strEqB_false_of_lt hgt
          · rcases (ih h2).mp h4 with h5 | ⟨h6, h7⟩
            · exact Or.inl h5
            · exact Or.inr ⟨List.mem_cons.mpr (Or.inr h6), h7⟩
        · intro hx
          rcases hx with h3 | ⟨hmem, hne⟩
          · exact List.mem_cons.mpr (Or.inr ((ih h2).mpr (Or.inl h3)))
          · rcases List.mem_cons.mp hmem with h4 | h5
            · exact List.mem_cons.mpr (Or.inl h4)
            · exact List.mem_cons.mpr (Or.inr ((ih h2).mpr (Or.inr ⟨h5, hne⟩)))

theorem pairwise_mapInsert {k v : String} :
    ∀ {m : List (String × String)}, List.Pairwise keyLt m →
      List.Pairwise keyLt (mapInsert k v m) := by
  intro m hp
  induction m with
  | nil => simp [mapInsert, keyLt]
  | cons kv2 rest ih =>
    obtain ⟨k2, v2⟩ := kv2
    obtain ⟨h1, h2⟩ := List.pairwise_cons.mp hp
    cases hlt : strLtB k k2 with
    | true =>
      simp only [mapInsert, hlt, if_true]
      refine List.pairwise_cons.mpr ⟨?_, hp⟩
      intro x hx
      rcases List.mem_cons.mp hx with h3 | h4
      · rw [h3]
        exact hlt
      · exact strLtB_trans hlt (h1 x h4)
    | false =>
      cases heq : strEqB k k2 with
      | true =>
        simp only [mapInsert, hlt, heq, if_true, if_false, Bool.false_eq_true]
        refine List.pairwise_cons.mpr ⟨?_, h2⟩
        intro x hx
        have hk2x : strLtB k2 x.1 = true := h1 x hx
        show strLtB k x.1 = true
        rw [strLtB_congr_left (strEqB_bytes heq)]
        exact hk2x
      | false =>
        simp only [mapInsert, hlt, heq, if_false, Bool.false_eq_true]
        refine List.pairwise_cons.mpr ⟨?_, ih h2⟩
        intro x hx
        rcases (mem_mapInsert h2).mp hx with h3 | ⟨h4, _⟩
        · rw [h3]
          exact strLtB_of_not_lt_not_eq hlt heq
        · exact h1 x h4

theorem pairwise_mapInsertAll :
    ∀ (l : List (String × String)) {m : List (String × String)},
      List.Pairwise keyLt m → List.Pairwise keyLt (mapInsertAll m l) := by
  intro l
  induction l with
  | nil => intro m hp; exact hp
  | cons kv rest ih =>
    intro m hp
    exact ih (pairwise_mapInsert hp)

theorem pairwise_buildMap (l : List (String × String)) :
    List.Pairwise keyLt (buildMap l) :=
  pairwise_mapInsertAll l List.Pairwise.nil

theorem mem_mapInsertAll {x : String × String} :
    ∀ (l : List (String × String)) {m : List (String × String)},
      List.Pairwise keyLt m →
      (l.map (fun kv => strBytes kv.1)).Nodup →
      (x ∈ mapInsertAll m l ↔
        (x ∈ l ∨ (x ∈ m ∧ ∀ kv ∈ l, strEqB x.1 kv.1 = false))) := by
  intro l
  induction l with
  | nil =>
    intro m hp hnd
    simp [mapInsertAll]
  | cons kv rest ih =>
    intro m hp hnd
    obtain ⟨hnd1, hnd2⟩ := List.nodup_cons.mp hnd
    have hstep : mapInsertAll m (kv :: rest) = mapInsertAll (mapInsert kv.1 kv.2 m) rest := rfl
    rw [hstep, ih (pairwise_mapInsert hp) hnd2]
    constructor
    · intro hx
      rcases hx with h3 | ⟨h4, h5⟩
      · exact Or.inl (List.mem_cons.mpr (Or.inr h3))
      · rcases (mem_mapInsert hp).mp h4 with h6 | ⟨h7, h8⟩
        · exact Or.inl (List.mem_cons.mpr (Or.inl (by rw [h6])))
        · refine Or.inr ⟨h7, ?_⟩
          intro u hu
          rcases List.mem_cons.mp hu with h9 | h10
          · rw [h9]
            exact h8
          · exact h5 u h10
    · intro hx
      rcases hx with h3 | ⟨h4, h5⟩
      · rcases List.mem_cons.mp h3 with h6 | h7
        · refine Or.inr ⟨(mem_mapInsert hp).mpr (Or.inl (by rw [h6])), ?_⟩
          intro u hu
          subst h6
          have hxb : strBytes x.1 ∉ rest.map (fun kv2 => strBytes kv2.1) := hnd1
          have : strBytes u.1 ≠ strBytes x.1 := by
            intro he
            exact hxb (by
              rw [← he]
              exact List.mem_map.mpr ⟨u, hu, rfl⟩)
          simp only [strEqB, beq_eq_false_iff_ne, ne_eq]
          exact fun hc => this hc.symm
        · exact Or.inl h7
      · refine Or.inr ⟨(mem_mapInsert hp).mpr (Or.inr ⟨h4, h5 kv (List.mem_cons_self _ _)⟩), ?_⟩
        intro u hu
        exact h5 u (List.mem_cons.mpr (Or.inr hu))

theorem mem_buildMap {x : String × String} {l : List (String × String)}
    (hnd : (l.map (fun kv => strBytes kv.1)).Nodup) :
    x ∈ buildMap l ↔ x ∈ l := by
  rw [buildMap, mem_mapInsertAll l List.Pairwise.nil hnd]
  simp

theorem sorted_eq_of_mem_iff :
    ∀ {l1 l2 : List (String × String)}, List.Pairwise keyLt l1 → List.Pairwise keyLt l2 →
      (∀ x, x ∈ l1 ↔ x ∈ l2) → l1 = l2 := by
  intro l1
  induction l1 with
  | nil =>
    intro l2 hp1 hp2 hiff
    cases l2 with
    | nil => rfl
    | cons b bs =>
      exact absurd ((hiff b).mpr (List.mem_cons_self _ _)) (List.not_mem_nil b)
  | cons a as ih =>
    intro l2 hp1 hp2 hiff
    cases l2 with
    | nil =>
      exact absurd ((hiff a).mp (List.mem_cons_self _ _)) (List.not_mem_nil a)
    | cons b bs =>
      obtain ⟨ha1, ha2⟩ := List.pairwise_cons.mp hp1
      obtain ⟨hb1, hb2⟩ := List.pairwise_cons.mp hp2
      have hab : a = b := by
        rcases List.mem_cons.mp ((hiff a).mp (List.mem_cons_self _ _)) with h3 | h4
        · exact h3
        · rcases List.mem_cons.mp ((hiff b).mpr (List.mem_cons_self _ _)) with h5 | h6
          · exact h5.symm
          · exfalso
            have hba : strLtB b.1 a.1 = true := hb1 a h4
            have hab2 : strLtB a.1 b.1 = true := ha1 b h6
            rw [strLtB_asymm hab2] at hba
            exact Bool.noConfusion hba
      subst hab
      have htails : ∀ x, x ∈ as ↔ x ∈ bs := by
        intro x
        constructor
        · intro hx
          rcases List.mem_cons.mp ((hiff x).mp (List.mem_cons.mpr (Or.inr hx))) with h3 | h4
          · exfalso
            have hax : strLtB a.1 x.1 = true := ha1 x hx
            rw [h3] at hax
            rw [strLtB_irrefl] at hax
            exact Bool.noConfusion hax
          · exact h4
        · intro hx
          rcases List.mem_cons.mp ((hiff x).mpr (List.mem_cons.mpr (Or.inr hx))) with h3 | h4
          · exfalso
            have hax : strLtB a.1 x.1 = true := hb1 x hx
            rw [h3] at hax
            rw [strLtB_irrefl] at hax
            exact Bool.noConfusion hax
          · exact h4
      rw [ih ha2 hb2 htails]

theorem filter_mapInsert_neg {pb : List Nat → Bool} {k v : String}
    (hk : pb (strBytes k) = false) :
    ∀ (m : List (String × String)),
      (mapInsert k v m).filter (fun kv => pb (strBytes kv.1)) =
        m.filter (fun kv => pb (strBytes kv.1)) := by
  intro m
  induction m with
  | nil => simp [mapInsert, hk]
  | cons kv2 rest ih =>
    obtain ⟨k2, v2⟩ := kv2
    cases hlt : strLtB k k2 with
    | true => simp [mapInsert, hlt, hk]
    | false =>
      cases heq : strEqB k k2 with
      | true =>
        have hbytes : strBytes k = strBytes k2 := strEqB_bytes heq
        have hk2 : pb (strBytes k2) = false := by
          rw [← hbytes]
          exact hk
        simp [mapInsert, hlt, heq, hk, hk2]
      | false =>
        simp only [mapInsert, hlt, heq, if_false, Bool.false_eq_true]
        cases hp2 : pb (strBytes k2) with
        | true => simp [List.filter, hp2, ih]
        | false => simp [List.filter, hp2, ih]

theorem filter_mapInsertAll_neg {pb : List Nat → Bool} :
    ∀ (l : List (String × String)) (m : List (String × String)),
      (∀ kv ∈ l, pb (strBytes kv.1) = false) →
      (mapInsertAll m l).filter (fun kv => pb (strBytes kv.1)) =
        m.filter (fun kv => pb (strBytes kv.1)) := by
  intro l
  induction l with
  | nil => intro m hl; rfl
  | cons kv rest ih =>
    intro m hl
    have hstep : mapInsertAll m (kv :: rest) = mapInsertAll (mapInsert kv.1 kv.2 m) rest := rfl
    rw [hstep, ih _ (fun u hu => hl u (List.mem_cons.mpr (Or.inr hu)))]
    exact filter_mapInsert_neg (hl kv (List.mem_cons_self _ _)) m

theorem filter_mapInsert_pos {pb : List Nat → Bool} {k v : String}
    (hk : pb (strBytes k) = true) :
    ∀ {m : List (String × String)}, List.Pairwise keyLt m →
      (mapInsert k v m).filter (fun kv => pb (strBytes kv.1)) =
        mapInsert k v (m.filter (fun kv => pb (strBytes kv.1))) := by
  intro m hp
  induction m with
  | nil => simp [mapInsert, hk]
  | cons kv2 rest ih =>
    obtain ⟨k2, v2⟩ := kv2
    obtain ⟨h1, h2⟩ := List.pairwise_cons.mp hp
    cases hlt : strLtB k k2 with
    | true =>
      cases hp2 : pb (strBytes k2) with
      | true =>
        simp only [mapInsert, hlt, if_true]
        simp [List.filter, hk, hp2, mapInsert, hlt]
      | false =>
        simp only [mapInsert, hlt, if_true]
        simp only [List.filter, hk, hp2]
        rw [mapInsert_eq_cons]
        intro x hx
        have hx2 : x ∈ rest := List.mem_of_mem_filter hx
        exact strLtB_trans hlt (h1 x hx2)
    | false =>
      cases heq : strEqB k k2 with
      | true =>
        have hbytes : strBytes k = strBytes k2 := strEqB_bytes heq
        have hp2 : pb (strBytes k2) = true := by
          rw [← hbytes]
          exact hk
        simp only [mapInsert, hlt, heq, if_true, if_false, Bool.false_eq_true]
        simp only [List.filter, hk, hp2]
        have hltf : strLtB k k2 = false := hlt
        simp [mapInsert, hltf, heq]
      | false =>
        simp only [mapInsert, hlt, heq, if_false, Bool.false_eq_true]
        cases hp2 : pb (strBytes k2) with
        | true =>
          simp only [List.filter, hp2, ih h2]
          simp [mapInsert, hlt, heq]
        | false =>
          simp [List.filter, hp2, ih h2]

/-- Parameter rendering inside `XClient::signature_base_string`: the
percent-encoded `key=value` pairs of the map, joined with `&`, in map
iteration order (ascending byte order of the keys). -/
def param_string (params : List (String × String)) : String :=
  String.intercalate "&" (params.map (fun kv => pct_encode kv.1 ++ "=" ++ pct_encode kv.2))

/-- Model of `XClient::signature_base_string` from `src/api.rs`: uppercased method,
percent-encoded URL and percent-encoded parameter string, joined with `&`.
(`method.to_uppercase()` is modelled by `String.toUpper`; the only methods
in the program are the ASCII strings "GET" and "POST".) -/
def signature_base_string (method url : String) (params : List (String × String)) : String :=
  method.toUpper ++ "&" ++ pct_encode url ++ "&" ++ pct_encode (param_string params)

/-- C3: for every method, URL and parameter mapping, the parameter segment
of the signature base string lists the pairs sorted by key in ascending byte
order (the map's entry sequence is `Pairwise keyLt`), and two insertion
sequences with the same key-value contents (permutations of one another,
with no duplicate keys) yield the same base string. -/
theorem signature_base_string_sorted (method url : String)
    (l1 l2 : List (String × String)) (hperm : l1.Perm l2)
    (hnd : (l1.map (fun kv => strBytes kv.1)).Nodup) :
    List.Pairwise keyLt (buildMap l1) ∧
      signature_base_string method url (buildMap l1) =
        signature_base_string method url (buildMap l2) := by
  have hnd2 : (l2.map (fun kv => strBytes kv.1)).Nodup :=
    (hperm.map (fun kv => strBytes kv.1)).nodup_iff.mp hnd
  have heq : buildMap l1 = buildMap l2 :=
    sorted_eq_of_mem_iff (pairwise_buildMap l1) (pairwise_buildMap l2) (fun x => by
      rw [mem_buildMap hnd, mem_buildMap hnd2]
      exact hperm.mem_iff)
  exact ⟨pairwise_buildMap l1, by rw [heq]⟩

/-- Witness for C3 at a concrete pair of insertion orders. -/
theorem signature_base_string_sorted_witness :
    List.Pairwise keyLt (buildMap [("b", "2"), ("a", "1")]) ∧
      signature_base_string "post" "https://u" (buildMap [("b", "2"), ("a", "1")]) =
        signature_base_string "post" "https://u" (buildMap [("a", "1"), ("b", "2")]) :=
  signature_base_string_sorted "post" "https://u" [("b", "2"), ("a", "1")]
    [("a", "1"), ("b", "2")] (by decide) (by decide)

/-- The `Config` credential struct of `src/api.rs`: four secret strings. -/
structure Config where
  api_key : String
  api_key_secret : String
  access_token : String
  access_token_secret : String
  deriving DecidableEq

/-- The `fmt::Debug` implementation for `Config` in `src/api.rs`: a
`debug_struct` rendering in which every field is printed as the fixed
string `***REDACTED***`; no field value is read. -/
def configDebugFmt (_c : Config) : String :=
  "Config \x7b api_key: \"***REDACTED***\", api_key_secret: \"***REDACTED***\", access_token: \"***REDACTED***\", access_token_secret: \"***REDACTED***\" \x7d"

/-- The OAuth signing key of `oauth_header`: percent-encoded consumer secret
and token secret joined with `&`. -/
def signingKey (cfg : Config) : String :=
  pct_encode cfg.api_key_secret ++ "&" ++ pct_encode cfg.access_token_secret

/-- The six fixed protocol parameters inserted by `oauth_header`, in the
order the source inserts them. -/
def oauthFixedInserts (cfg : Config) (timestamp nonce : String) : List (String × String) :=
  [("oauth_consumer_key", cfg.api_key), ("oauth_nonce", nonce),
   ("oauth_signature_method", "HMAC-SHA1"), ("oauth_timestamp", timestamp),
   ("oauth_token", cfg.access_token), ("oauth_version", "1.0")]

/-- The full parameter map assembled by `oauth_header` before signing: the
six fixed protocol parameters, then the caller-supplied extra parameters,
inserted into a `BTreeMap` in that order. -/
def oauthAllParams (cfg : Config) (timestamp nonce : String)
    (extra_params : List (String × String)) : List (String × String) :=
  mapInsertAll (mapInsertAll [] (oauthFixedInserts cfg timestamp nonce)) extra_params

/-- Model of `XClient::oauth_header` from `src/api.rs`.  The system clock and the
random nonce are passed in as the strings they produce; `hmacSha1Base64`
stands for the external `Hmac<Sha1>` + base64 pipeline (key, message ↦
base64 signature).  After signing, the header keeps exactly the map entries
whose key starts with `oauth_`, rendered as percent-encoded
`key="value"` pairs joined by `", "` after the scheme name. -/
def oauth_header (cfg : Config) (timestamp nonce : String)
    (hmacSha1Base64 : String → String → String)
    (method url : String) (extra_params : List (String × String)) : String :=
  let params := oauthAllParams cfg timestamp nonce extra_params
  let base_string := signature_base_string method url params
  let signature := hmacSha1Base64 (signingKey cfg) base_string
  let params2 := mapInsert "oauth_signature" signature params
  let header_parts := (params2.filter (fun kv => strStartsWithB kv.1 "oauth_")).map
    (fun kv => pct_encode kv.1 ++ "=\"" ++ pct_encode kv.2 ++ "\"")
  "OAuth " ++ String.intercalate ", " header_parts

/-- C2 counterexample: a caller-supplied extra parameter whose key starts
with `oauth_` passes the header filter, so it does appear in the emitted
Authorization header, contradicting the claim that no caller-supplied extra
parameter ever appears there. -/
theorem oauth_header_leaks_oauth_extra :
    strContainsSub
      (oauth_header ⟨"ck", "cs", "tok", "ts"⟩ "111" "abc" (fun _ _ => "SIG")
        "POST" "https://u" [("oauth_callback", "cb")])
      "oauth_callback=\"cb\"" = true := by
  decide

/-- C2 amended: when no caller-supplied extra parameter has a key starting
with `oauth_`, the Authorization header contains exactly the six fixed
protocol parameters plus `oauth_signature` (rendered in ascending key order)
and no caller-supplied extra parameter, even though the extras participated
in the signature base string.  (The counterexample `oauth_header_leaks_oauth_extra`
shows the restriction is necessary: the header filter keeps every key that
starts with `oauth_`, including such extras.) -/
theorem oauth_header_fixed_params (cfg : Config) (timestamp nonce : String)
    (hmacSha1Base64 : String → String → String) (method url : String)
    (extras : List (String × String))
    (hx : ∀ kv ∈ extras, strStartsWithB kv.1 "oauth_" = false) :
    oauth_header cfg timestamp nonce hmacSha1Base64 method url extras =
      "OAuth " ++ String.intercalate ", "
        (([("oauth_consumer_key", cfg.api_key), ("oauth_nonce", nonce),
           ("oauth_signature",
             hmacSha1Base64 (signingKey cfg)
               (signature_base_string method url (oauthAllParams cfg timestamp nonce extras))),
           ("oauth_signature_method", "HMAC-SHA1"), ("oauth_timestamp", timestamp),
           ("oauth_token", cfg.access_token), ("oauth_version", "1.0")]).map
          (fun kv => pct_encode kv.1 ++ "=\"" ++ pct_encode kv.2 ++ "\"")) := by
  have hx2 : ∀ kv ∈ extras, bytesLead (strBytes "oauth_") (strBytes kv.1) = false := by
    intro kv hkv
    have hh := hx kv hkv
    simpa [strStartsWithB] using hh
  have hpairSix : List.Pairwise keyLt (mapInsertAll [] (oauthFixedInserts cfg timestamp nonce)) :=
    pairwise_mapInsertAll _ List.Pairwise.nil
  have hpairM : List.Pairwise keyLt (oauthAllParams cfg timestamp nonce extras) :=
    pairwise_mapInsertAll _ hpairSix
  have hsig : bytesLead (strBytes "oauth_") (strBytes "oauth_signature") = true := by decide
  simp only [oauth_header, strStartsWithB]
  rw [filter_mapInsert_pos hsig hpairM]
  simp only [oauthAllParams]
  rw [filter_mapInsertAll_neg extras _ hx2]
  rfl

/-- Witness for the amended C2 theorem at concrete credentials, oracle and
one non-`oauth_` extra parameter. -/
theorem oauth_header_fixed_params_witness :
    oauth_header ⟨"ck", "cs", "tok", "ts"⟩ "111" "abc" (fun _ _ => "SIG") "POST" "https://u"
        [("status", "hi")] =
      "OAuth " ++ String.intercalate ", "
        (([("oauth_consumer_key", "ck"), ("oauth_nonce", "abc"), ("oauth_signature", "SIG"),
           ("oauth_signature_method", "HMAC-SHA1"), ("oauth_timestamp", "111"),
           ("oauth_token", "tok"), ("oauth_version", "1.0")]).map
          (fun kv => pct_encode kv.1 ++ "=\"" ++ pct_encode kv.2 ++ "\"")) :=
  oauth_header_fixed_params ⟨"ck", "cs", "tok", "ts"⟩ "111" "abc" (fun _ _ => "SIG") "POST"
    "https://u" [("status", "hi")] (by decide)

/-- The fixed debug rendering emitted for every `Config` value. -/
def redactedConfigRendering : String :=
  "Config \x7b api_key: \"***REDACTED***\", api_key_secret: \"***REDACTED***\", access_token: \"***REDACTED***\", access_token_secret: \"***REDACTED***\" \x7d"

/-- C9 counterexample: the claim that the rendering contains none of the
four secret strings fails for a degenerate secret that happens to be a
substring of the fixed redaction template, for example an api_key equal to
"REDACTED". -/
theorem config_debug_contains_degenerate_secret :
    strContainsSub (configDebugFmt ⟨"REDACTED", "s", "t", "u"⟩)
        (Config.api_key ⟨"REDACTED", "s", "t", "u"⟩) = true := by
  decide

/-- C9 amended: the debug rendering of `Config` is one fixed constant —
identical for any two credential values, so no field value influences it —
and consequently a secret can occur in the rendering only when it is itself
a substring of that fixed constant. -/
theorem config_debug_redacts (c c2 : Config) (s : String) :
    configDebugFmt c = configDebugFmt c2 ∧
      configDebugFmt c = redactedConfigRendering ∧
      (strContainsSub (configDebugFmt c) s = true →
        strContainsSub redactedConfigRendering s = true) :=
  ⟨rfl, rfl, fun h => h⟩

/-- Witness for the amended C9 theorem at concrete credential values. -/
theorem config_debug_redacts_witness :
    configDebugFmt ⟨"a", "b", "c", "d"⟩ = configDebugFmt ⟨"e", "f", "g", "h"⟩ ∧
      strContainsSub redactedConfigRendering "api_key" = true :=
  ⟨(config_debug_redacts ⟨"a", "b", "c", "d"⟩ ⟨"e", "f", "g", "h"⟩ "api_key").1,
   (config_debug_redacts ⟨"a", "b", "c", "d"⟩ ⟨"e", "f", "g", "h"⟩ "api_key").2.2 (by decide)⟩

/-- The constant `MAX_TWEET_LENGTH` from `src/api.rs`. -/
def MAX_TWEET_LENGTH : Nat := 280

/-- Rust `char::is_whitespace`: the Unicode `White_Space` property. -/
def rustIsWhitespace (c : Char) : Bool :=
  [0x09, 0x0A, 0x0B, 0x0C, 0x0D, 0x20, 0x85, 0xA0, 0x1680,
   0x2000, 0x2001, 0x2002, 0x2003, 0x2004, 0x2005, 0x2006, 0x2007, 0x2008, 0x2009, 0x200A,
   0x2028, 0x2029, 0x202F, 0x205F, 0x3000].contains c.toNat

/-- Rust `str::trim`: the character sequence with leading and trailing
whitespace removed. -/
def rustTrimmedData (s : String) : List Char :=
  ((s.data.dropWhile rustIsWhitespace).reverse.dropWhile rustIsWhitespace).reverse

/-- Model of `XClient::validate_tweet_text` from `src/api.rs`: reject text that is
empty after trimming, then reject text whose unicode-scalar count
(`chars().count()`, which is `String.length` here) exceeds 280. -/
def validate_tweet_text (text : String) : Except String Unit :=
  if (rustTrimmedData text).isEmpty then Except.error "Tweet text cannot be empty"
  else if text.length > MAX_TWEET_LENGTH then
    Except.error ("Tweet text is " ++ toString text.length ++
      " characters (max " ++ toString MAX_TWEET_LENGTH ++ ")")
  else Except.ok ()

/-- Model of `PostResult` from `src/api.rs`. -/
structure PostResult where
  tweet_id : String
  url : String
  deriving DecidableEq

/-- The JSON request body built by `post_tweet` (`TweetBody`, with its
nested single-field `TweetMedia` and `TweetReply` structs flattened). -/
structure TweetBody where
  text : String
  media_ids : Option (List String)
  in_reply_to_tweet_id : Option String
  deriving DecidableEq

/-- Model of `XClient::post_tweet` from `src/api.rs`.  `upload` stands for the
`upload_media` call (path ↦ media id or error) and `send` for the signed
HTTP POST of the body together with its status-code and parse handling
(body ↦ created tweet id or error); both are external I/O passed as
oracles.  Validation runs first; the URL of a created post is
`https://x.com/<username>/status/<id>`. -/
def post_tweet (upload : String → Except String String)
    (send : TweetBody → Except String String)
    (text : String) (image_path : Option String) (reply_to : Option String)
    (username : String) : Except String PostResult :=
  match validate_tweet_text text with
  | Except.error e => Except.error e
  | Except.ok _ =>
    match (match image_path with
           | some path => Except.map some (upload path)
           | none => Except.ok none) with
    | Except.error e => Except.error e
    | Except.ok media_id =>
      let body : TweetBody := ⟨text, Option.map (fun id => [id]) media_id, reply_to⟩
      match send body with
      | Except.error e => Except.error e
      | Except.ok id => Except.ok ⟨id, "https://x.com/" ++ username ++ "/status/" ++ id⟩

/-- C5: text validation accepts exactly the texts whose trimmed form is
non-empty and whose unicode-scalar count is at most 280; a 280-character
text passes, a 281-character text fails with a message containing "281" and
"280"; empty or whitespace-only text fails; and a validation failure is
returned by `post_tweet` before any upload or network oracle is consulted
(the result is the same for every oracle). -/
theorem validate_tweet_text_spec (text : String) :
    (validate_tweet_text text = Except.ok () ↔
      ((rustTrimmedData text).isEmpty = false ∧ text.length ≤ 280)) ∧
    (∀ upload send image_path reply_to username,
      (rustTrimmedData text).isEmpty = true →
        post_tweet upload send text image_path reply_to username =
          Except.error "Tweet text cannot be empty") ∧
    ((rustTrimmedData text).isEmpty = false → text.length = 280 →
      validate_tweet_text text = Except.ok ()) ∧
    ((rustTrimmedData text).isEmpty = false → text.length = 281 →
      ∃ msg, validate_tweet_text text = Except.error msg ∧
        strContainsSub msg "281" = true ∧ strContainsSub msg "280" = true) ∧
    (∀ upload send image_path reply_to username msg,
      validate_tweet_text text = Except.error msg →
        post_tweet upload send text image_path reply_to username = Except.error msg) := by
  refine ⟨?_, ?_, ?_, ?_, ?_⟩
  · constructor
    · intro h
      cases h1 : (rustTrimmedData text).isEmpty with
      | true => simp [validate_tweet_text, h1] at h
      | false =>
        by_cases h2 : text.length > MAX_TWEET_LENGTH
        · simp [validate_tweet_text, h1, h2] at h
        · simp only [MAX_TWEET_LENGTH] at h2
          exact ⟨rfl, by omega⟩
    · rintro ⟨h1, h2⟩
      have h3 : ¬ (text.length > MAX_TWEET_LENGTH) := by
        simp only [MAX_TWEET_LENGTH]
        omega
      simp [validate_tweet_text, h1, h3]
  · intro upload send image_path reply_to username h1
    have hval : validate_tweet_text text = Except.error "Tweet text cannot be empty" := by
      simp [validate_tweet_text, h1]
    simp [post_tweet, hval]
  · intro h1 h2
    have h3 : ¬ (text.length > MAX_TWEET_LENGTH) := by
      simp only [MAX_TWEET_LENGTH]
      omega
    simp [validate_tweet_text, h1, h3]
  · intro h1 h2
    refine ⟨"Tweet text is 281 characters (max 280)", ?_, by decide, by decide⟩
    have h3 : text.length > MAX_TWEET_LENGTH := by
      simp only [MAX_TWEET_LENGTH]
      omega
    simp only [validate_tweet_text, h1, h3, if_true, if_false, Bool.false_eq_true, h2,
      MAX_TWEET_LENGTH]
    rw [if_pos (by omega : 281 > 280)]
    congr 1
  · intro upload send image_path reply_to username msg hval
    simp [post_tweet, hval]

/-- Witness for C5 at concrete texts: a two-character text, a
whitespace-only text, and a 281-character text. -/
theorem validate_tweet_text_spec_witness :
    (validate_tweet_text "hi" = Except.ok () ↔
      ((rustTrimmedData "hi").isEmpty = false ∧ "hi".length ≤ 280)) ∧
    post_tweet (fun _ => Except.error "net") (fun _ => Except.error "net") " " none none "u" =
      Except.error "Tweet text cannot be empty" ∧
    (∃ msg, validate_tweet_text (String.mk (List.replicate 281 'a')) = Except.error msg ∧
      strContainsSub msg "281" = true ∧ strContainsSub msg "280" = true) :=
  ⟨(validate_tweet_text_spec "hi").1,
   (validate_tweet_text_spec " ").2.1 (fun _ => Except.error "net")
     (fun _ => Except.error "net") none none "u" (by decide),
   (validate_tweet_text_spec (String.mk (List.replicate 281 'a'))).2.2.2.1 (by decide)
     (by decide)⟩

/-- The constant `MAX_THREAD_LENGTH` from `src/api.rs`. -/
def MAX_THREAD_LENGTH : Nat := 25

/-- Model of `ThreadResult` from `src/api.rs`. -/
structure ThreadResult where
  posted : List PostResult
  error : Option String
  deriving DecidableEq

/-- The posting loop of `XClient::post_thread`: walk the items in order,
threading the previous post's id as the next reply target, accumulating the
results; stop at the first failure with an error message carrying the
1-based index and the total count.  `postTweet` stands for the `post_tweet`
call (text, image, reply target, username ↦ result); the fixed 500 ms pause
between posts has no observable effect on the result and is not modelled.
`total` is the length of the whole input list and `i` the 0-based index of
the next item. -/
def post_thread_go
    (postTweet : String → Option String → Option String → String → Except String PostResult)
    (username : String) (total : Nat) :
    Nat → Option String → List PostResult → List (String × Option String) → ThreadResult
  | _, _, posted, [] => { posted := posted, error := none }
  | i, reply_to, posted, (text, image) :: rest =>
    match postTweet text image reply_to username with
    | Except.ok post =>
      post_thread_go postTweet username total (i + 1) (some post.tweet_id)
        (posted ++ [post]) rest
    | Except.error e =>
      { posted := posted,
        error := some ("Tweet " ++ toString (i + 1) ++ " of " ++ toString total ++
          " failed: " ++ e) }

/-- Model of `XClient::post_thread` from `src/api.rs`: reject an empty list, reject a
list longer than 25 items, otherwise run the posting loop. -/
def post_thread
    (postTweet : String → Option String → Option String → String → Except String PostResult)
    (tweets : List (String × Option String)) (username : String) : ThreadResult :=
  if tweets.isEmpty then
    { posted := [], error := some "Thread must contain at least one tweet" }
  else if tweets.length > MAX_THREAD_LENGTH then
    { posted := [],
      error := some ("Thread exceeds maximum of " ++ toString MAX_THREAD_LENGTH ++ " tweets") }
  else post_thread_go postTweet username tweets.length 0 none [] tweets

/-- The reply target the orchestrator passes for the item at 0-based
position `k`: none for the first item, the preceding result's tweet id
afterwards. -/
def replyArg (results : List PostResult) (k : Nat) : Option String :=
  if k = 0 then none else Option.map PostResult.tweet_id results[k - 1]?

/-- The first `i` items all succeed with the results `results`: for each
`k < i` the oracle, called with the chained reply target, answers
`ok results[k]`. -/
def OkRun
    (postTweet : String → Option String → Option String → String → Except String PostResult)
    (username : String) (tweets : List (String × Option String))
    (results : List PostResult) (i : Nat) : Prop :=
  ∀ k, k < i → ∃ t r, tweets[k]? = some t ∧ results[k]? = some r ∧
    postTweet t.1 t.2 (replyArg results k) username = Except.ok r

theorem post_thread_go_ok
    (postTweet : String → Option String → Option String → String → Except String PostResult)
    (username : String) (total : Nat) :
    ∀ (rest : List (String × Option String)) (newRes : List PostResult)
      (i : Nat) (posted : List PostResult) (r0 : Option String),
      newRes.length = rest.length →
      (∀ k, k < rest.length → ∃ t r, rest[k]? = some t ∧ newRes[k]? = some r ∧
        postTweet t.1 t.2
          (if k = 0 then r0 else Option.map PostResult.tweet_id newRes[k - 1]?) username =
          Except.ok r) →
      post_thread_go postTweet username total i r0 posted rest =
        { posted := posted ++ newRes, error := none } := by
  intro rest
  induction rest with
  | nil =>
    intro newRes i posted r0 hlen hok
    have hnil : newRes = [] := List.length_eq_zero.mp hlen
    subst hnil
    simp [post_thread_go]
  | cons hd tl ih =>
    intro newRes i posted r0 hlen hok
    obtain ⟨text, image⟩ := hd
    cases newRes with
    | nil => simp at hlen
    | cons r rs =>
      obtain ⟨t0, rr0, ht0, hr0, hcall⟩ := hok 0 (by simp)
      simp only [List.getElem?_cons_zero, Option.some.injEq] at ht0 hr0
      subst ht0
      subst hr0
      simp at hcall
      simp only [post_thread_go, hcall]
      have hlen2 : rs.length = tl.length := by
        simp only [List.length_cons] at hlen
        omega
      have hok2 : ∀ k, k < tl.length → ∃ t r2, tl[k]? = some t ∧ rs[k]? = some r2 ∧
          postTweet t.1 t.2
            (if k = 0 then some r.tweet_id else Option.map PostResult.tweet_id rs[k - 1]?)
            username = Except.ok r2 := by
        intro k hk
        obtain ⟨t, r2, ht, hr2, hcall2⟩ := hok (k + 1) (by
          simp only [List.length_cons]
          omega)
        refine ⟨t, r2, ?_, ?_, ?_⟩
        · simpa using ht
        · simpa using hr2
        · have harg : (if k + 1 = 0 then r0
              else Option.map PostResult.tweet_id (r :: rs)[k + 1 - 1]?) =
              (if k = 0 then some r.tweet_id
               else Option.map PostResult.tweet_id rs[k - 1]?) := by
            cases k with
            | zero => simp
            | succ j => simp
          rw [harg] at hcall2
          exact hcall2
      rw [ih rs (i + 1) (posted ++ [r]) (some r.tweet_id) hlen2 hok2]
      rw [List.append_assoc]
      rfl

theorem post_thread_go_err
    (postTweet : String → Option String → Option String → String → Except String PostResult)
    (username : String) (total : Nat) :
    ∀ (rest : List (String × Option String)) (newRes : List PostResult)
      (j i : Nat) (posted : List PostResult) (r0 : Option String)
      (t : String × Option String) (e : String),
      newRes.length = j → j < rest.length →
      (∀ k, k < j → ∃ tk rk, rest[k]? = some tk ∧ newRes[k]? = some rk ∧
        postTweet tk.1 tk.2
          (if k = 0 then r0 else Option.map PostResult.tweet_id newRes[k - 1]?) username =
          Except.ok rk) →
      rest[j]? = some t →
      postTweet t.1 t.2
        (if j = 0 then r0 else Option.map PostResult.tweet_id newRes[j - 1]?) username =
        Except.error e →
      post_thread_go postTweet username total i r0 posted rest =
        { posted := posted ++ newRes,
          error := some ("Tweet " ++ toString (i + j + 1) ++ " of " ++ toString total ++
            " failed: " ++ e) } := by
  intro rest
  induction rest with
  | nil =>
    intro newRes j i posted r0 t e hlen hj hok hjt hcall
    simp at hj
  | cons hd tl ih =>
    intro newRes j i posted r0 t e hlen hj hok hjt hcall
    obtain ⟨text, image⟩ := hd
    cases j with
    | zero =>
      have hnil : newRes = [] := List.length_eq_zero.mp hlen
      subst hnil
      simp only [List.getElem?_cons_zero, Option.some.injEq] at hjt
      subst hjt
      simp at hcall
      simp only [post_thread_go, hcall]
      simp
    | succ j2 =>
      cases newRes with
      | nil => simp at hlen
      | cons r rs =>
        obtain ⟨t0, rr0, ht0, hr0, hcall0⟩ := hok 0 (by omega)
        simp only [List.getElem?_cons_zero, Option.some.injEq] at ht0 hr0
        subst ht0
        subst hr0
        simp at hcall0
        simp only [post_thread_go, hcall0]
        have hlen2 : rs.length = j2 := by
          simp only [List.length_cons] at hlen
          omega
        have hj2 : j2 < tl.length := by
          simp only [List.length_cons] at hj
          omega
        have hok2 : ∀ k, k < j2 → ∃ tk rk, tl[k]? = some tk ∧ rs[k]? = some rk ∧
            postTweet tk.1 tk.2
              (if k = 0 then some r.tweet_id else Option.map PostResult.tweet_id rs[k - 1]?)
              username = Except.ok rk := by
          intro k hk
          obtain ⟨tk, rk, htk, hrk, hc⟩ := hok (k + 1) (by omega)
          refine ⟨tk, rk, by simpa using htk, by simpa using hrk, ?_⟩
          have harg : (if k + 1 = 0 then r0
              else Option.map PostResult.tweet_id (r :: rs)[k + 1 - 1]?) =
              (if k = 0 then some r.tweet_id
               else Option.map PostResult.tweet_id rs[k - 1]?) := by
            cases k with
            | zero => simp
            | succ m => simp
          rw [harg] at hc
          exact hc
        have hjt2 : tl[j2]? = some t := by simpa using hjt
        have hcall2 : postTweet t.1 t.2
            (if j2 = 0 then some r.tweet_id else Option.map PostResult.tweet_id rs[j2 - 1]?)
            username = Except.error e := by
          have harg : (if j2 + 1 = 0 then r0
              else Option.map PostResult.tweet_id (r :: rs)[j2 + 1 - 1]?) =
              (if j2 = 0 then some r.tweet_id
               else Option.map PostResult.tweet_id rs[j2 - 1]?) := by
            cases j2 with
            | zero => simp
            | succ m => simp
          rw [harg] at hcall
          exact hcall
        rw [ih rs j2 (i + 1) (posted ++ [r]) (some r.tweet_id) t e hlen2 hj2 hok2 hjt2 hcall2]
        rw [List.append_assoc]
        have hidx : i + 1 + j2 + 1 = i + (j2 + 1) + 1 := by omega
        rw [hidx]
        rfl

/-- C4: for every accepted input list (non-empty, at most 25 items) and
every `post_tweet` oracle: if the first `i` items succeed with `results`
(each call after the first carrying the immediately preceding result's
tweet id as its reply target) and the call for item `i` fails with `e`, the
orchestrator returns exactly those `i` results, in order, together with the
error "Tweet (i+1) of (total) failed: e"; if all items succeed, the error is
absent and the posted sequence holds exactly one result per input item, in
input order. -/
theorem post_thread_first_failure
    (postTweet : String → Option String → Option String → String → Except String PostResult)
    (username : String) (tweets : List (String × Option String)) (results : List PostResult)
    (hne : tweets ≠ []) (hlen : tweets.length ≤ 25) :
    (results.length = tweets.length → OkRun postTweet username tweets results tweets.length →
      post_thread postTweet tweets username = { posted := results, error := none }) ∧
    (∀ i t e, results.length = i → i < tweets.length →
      OkRun postTweet username tweets results i →
      tweets[i]? = some t →
      postTweet t.1 t.2 (replyArg results i) username = Except.error e →
      post_thread postTweet tweets username =
        { posted := results,
          error := some ("Tweet " ++ toString (i + 1) ++ " of " ++ toString tweets.length ++
            " failed: " ++ e) }) := by
  have hemp : tweets.isEmpty = false := by
    cases tweets with
    | nil => exact absurd rfl hne
    | cons a l => rfl
  have hle : ¬ (tweets.length > MAX_THREAD_LENGTH) := by
    simp only [MAX_THREAD_LENGTH]
    omega
  constructor
  · intro hlen2 hok
    have hgo := post_thread_go_ok postTweet username tweets.length tweets results 0 [] none
      hlen2 (fun k hk => by
        obtain ⟨t, r, h1, h2, h3⟩ := hok k hk
        exact ⟨t, r, h1, h2, by simpa [replyArg] using h3⟩)
    simp [post_thread, hemp, hle, hgo]
  · intro i t e hlen2 hi hok hti hcall
    have hgo := post_thread_go_err postTweet username tweets.length tweets results i 0 [] none
      t e hlen2 hi (fun k hk => by
        obtain ⟨tk, rk, h1, h2, h3⟩ := hok k hk
        exact ⟨tk, rk, h1, h2, by simpa [replyArg] using h3⟩)
      hti (by simpa [replyArg] using hcall)
    simp [post_thread, hemp, hle, hgo]

/-- Witness for C4 at a concrete three-item chain whose second item fails:
exactly the first result is returned together with the indexed error. -/
theorem post_thread_first_failure_witness :
    post_thread
      (fun text _ _ _ => if text == "bad" then Except.error "boom"
        else Except.ok { tweet_id := "id", url := "u" })
      [("a", none), ("bad", none), ("c", none)] "user" =
      { posted := [{ tweet_id := "id", url := "u" }],
        error := some "Tweet 2 of 3 failed: boom" } := by
  have hok : OkRun
      (fun text _ _ _ => if text == "bad" then Except.error "boom"
        else Except.ok { tweet_id := "id", url := "u" }) "user"
      [("a", none), ("bad", none), ("c", none)] [{ tweet_id := "id", url := "u" }] 1 := by
    intro k hk
    interval_cases k
    exact ⟨("a", none), { tweet_id := "id", url := "u" }, rfl, rfl, rfl⟩
  have h := (post_thread_first_failure
      (fun text _ _ _ => if text == "bad" then Except.error "boom"
        else Except.ok { tweet_id := "id", url := "u" })
      "user" [("a", none), ("bad", none), ("c", none)] [{ tweet_id := "id", url := "u" }]
      (by simp) (by simp)).2 1 ("bad", none) "boom" rfl (by simp) hok rfl rfl
  rw [h]
  decide

/-- C6 counterexample: the empty chain is rejected, but its error message is
"Thread must contain at least one tweet"; the message claimed by the spec,
"must contain at least one item", does not occur in it (the code says
"tweet" where the spec says "item"). -/
theorem post_thread_empty_message :
    (post_thread (fun _ _ _ _ => Except.error "net") [] "u").error =
      some "Thread must contain at least one tweet" ∧
    strContainsSub "Thread must contain at least one tweet" "must contain at least one item"
      = false ∧
    strContainsSub "Thread must contain at least one tweet" "must contain at least one"
      = true := by
  decide

/-- C6 amended: for every oracle, the empty list is rejected without any
network call with the error "Thread must contain at least one tweet"; a
list of more than 25 items is rejected without any network call with the
error "Thread exceeds maximum of 25 tweets" (which contains the claimed
"exceeds maximum of 25"); a 25-item list passes both guards and is handed
to the posting loop. -/
theorem post_thread_guards
    (postTweet : String → Option String → Option String → String → Except String PostResult)
    (username : String) (tweets : List (String × Option String)) :
    (tweets = [] → post_thread postTweet tweets username =
      { posted := [], error := some "Thread must contain at least one tweet" }) ∧
    (tweets.length > 25 → post_thread postTweet tweets username =
      { posted := [], error := some "Thread exceeds maximum of 25 tweets" } ∧
      strContainsSub "Thread exceeds maximum of 25 tweets" "exceeds maximum of 25" = true) ∧
    (tweets.length = 25 → post_thread postTweet tweets username =
      post_thread_go postTweet username tweets.length 0 none [] tweets) := by
  refine ⟨?_, ?_, ?_⟩
  · intro h
    subst h
    rfl
  · intro h
    have hemp : tweets.isEmpty = false := by
      cases tweets with
      | nil => simp at h
      | cons a l => rfl
    have hgt : tweets.length > MAX_THREAD_LENGTH := by
      simp only [MAX_THREAD_LENGTH]
      omega
    refine ⟨?_, by decide⟩
    have hdef : post_thread postTweet tweets username =
        { posted := [],
          error := some ("Thread exceeds maximum of " ++ toString MAX_THREAD_LENGTH ++
            " tweets") } := by
      simp [post_thread, hemp, hgt]
    rw [hdef]
    decide
  · intro h
    have hemp : tweets.isEmpty = false := by
      cases tweets with
      | nil => simp at h
      | cons a l => rfl
    have hle : ¬ (tweets.length > MAX_THREAD_LENGTH) := by
      simp only [MAX_THREAD_LENGTH]
      omega
    simp [post_thread, hemp, hle]

/-- Witness for the amended C6 theorem at chains of length 0, 26 and 25. -/
theorem post_thread_guards_witness :
    post_thread (fun _ _ _ _ => Except.error "net") [] "u" =
      { posted := [], error := some "Thread must contain at least one tweet" } ∧
    post_thread (fun _ _ _ _ => Except.error "net") (List.replicate 26 ("a", none)) "u" =
      { posted := [], error := some "Thread exceeds maximum of 25 tweets" } ∧
    post_thread (fun _ _ _ _ => Except.error "net") (List.replicate 25 ("a", none)) "u" =
      post_thread_go (fun _ _ _ _ => Except.error "net") "u"
        (List.replicate 25 (("a", none) : String × Option String)).length 0 none []
        (List.replicate 25 ("a", none)) :=
  ⟨(post_thread_guards (fun _ _ _ _ => Except.error "net") "u" []).1 rfl,
   ((post_thread_guards (fun _ _ _ _ => Except.error "net") "u"
      (List.replicate 26 ("a", none))).2.1 (by simp)).1,
   (post_thread_guards (fun _ _ _ _ => Except.error "net") "u"
      (List.replicate 25 ("a", none))).2.2 (by simp)⟩

/-- The constant `MAX_MEDIA_SIZE` from `src/api.rs` (5 MiB). -/
def MAX_MEDIA_SIZE : Nat := 5 * 1024 * 1024

/-- The allow-list `ALLOWED_MIME_TYPES` from `src/api.rs`. -/
def ALLOWED_MIME_TYPES : List String :=
  ["image/jpeg", "image/png", "image/gif", "image/webp"]

/-- Split a character sequence at every occurrence of the separator. -/
def splitOnChar (c : Char) : List Char → List (List Char)
  | [] => [[]]
  | x :: xs =>
    match splitOnChar c xs with
    | [] => if x == c then [[], []] else [[x]]
    | y :: ys => if x == c then [] :: y :: ys else (x :: y) :: ys

/-- The final path component, as `std::path::Path::file_name` computes it
on Unix paths: the last component that is not empty and not `.`; a `..`
component has no file name.  Empty when absent. -/
def rustFileName (path : String) : List Char :=
  match ((splitOnChar '/' path.data).filter
      (fun comp => !comp.isEmpty && comp != ['.'])).getLast? with
  | some s => if s == ['.', '.'] then [] else s
  | none => []

/-- Model of `Path::extension().and_then(to_str).unwrap_or("")`: the part of the
file name after its last dot; a file name with no dot, or only a leading
dot, has no extension. -/
def rustExtension (path : String) : List Char :=
  match splitOnChar '.' (rustFileName path) with
  | [] => []
  | [_] => []
  | [[], _] => []
  | parts => (parts.getLast?).getD []

/-- The extension dispatch of `mime_from_path` in `src/api.rs`, including
the `ALLOWED_MIME_TYPES` membership check that follows the match. -/
def mime_from_ext (ext : String) : Except String String :=
  match (match ext with
         | "jpg" | "jpeg" => Except.ok "image/jpeg"
         | "png" => Except.ok "image/png"
         | "gif" => Except.ok "image/gif"
         | "webp" => Except.ok "image/webp"
         | _ => Except.error ("Unsupported image format '." ++ ext ++
             "'. Allowed: jpeg, png, gif, webp")) with
  | Except.error e => Except.error e
  | Except.ok mime =>
    if ALLOWED_MIME_TYPES.contains mime then Except.ok mime
    else Except.error ("MIME type " ++ mime ++ " is not allowed")

/-- Model of `mime_from_path` from `src/api.rs`: lowercase the extension (the
recognized extensions are ASCII, so ASCII lowercasing suffices) and
dispatch on it. -/
def mime_from_path (path : String) : Except String String :=
  mime_from_ext (String.mk ((rustExtension path).map Char.toLower))

/-- Model of `XClient::upload_media` from `src/api.rs`.  The filesystem is an
oracle: `pathExists` models `Path::exists` and `metadata` models
`fs::metadata` (yielding the size in bytes).  `net` models reading the
file, the multipart form and the signed upload request with its response
handling (path and validated MIME type ↦ media id string or error).
Validation runs in source order — existence, then size, then extension —
short-circuiting on the first failure. -/
def upload_media (pathExists : String → Bool)
    (metadata : String → Except String Nat)
    (net : String → String → Except String String) (path : String) :
    Except String String :=
  if pathExists path = false then Except.error ("File not found: " ++ path)
  else
    match metadata path with
    | Except.error e => Except.error ("Cannot read file metadata: " ++ e)
    | Except.ok size =>
      if size > MAX_MEDIA_SIZE then
        Except.error ("File too large: " ++ toString size ++ " bytes (max " ++
          toString (MAX_MEDIA_SIZE / (1024 * 1024)) ++ "MB)")
      else
        match mime_from_path path with
        | Except.error e => Except.error e
        | Except.ok mime => net path mime

/-- C7: upload validation runs in the fixed order existence → size →
extension and short-circuits before any network call — each conclusion
holds for every remaining oracle: a missing path yields the "File not
found" error regardless of size, extension and network; a file over the
5 MiB ceiling yields the "File too large" error naming the actual size and
the ceiling (rendered "5"++"MB") regardless of extension and network; an
unrecognized extension such as `.bmp` yields the "Unsupported image format"
error naming the allowed set, for every network oracle. -/
theorem upload_media_validation (pathExists : String → Bool)
    (metadata : String → Except String Nat) (net : String → String → Except String String)
    (path : String) :
    (pathExists path = false →
      upload_media pathExists metadata net path = Except.error ("File not found: " ++ path)) ∧
    (∀ size, pathExists path = true → metadata path = Except.ok size →
      size > MAX_MEDIA_SIZE →
      upload_media pathExists metadata net path =
        Except.error ("File too large: " ++ toString size ++ " bytes (max " ++
          toString (MAX_MEDIA_SIZE / (1024 * 1024)) ++ "MB)") ∧
      toString (MAX_MEDIA_SIZE / (1024 * 1024)) = "5") ∧
    (∀ size e, pathExists path = true → metadata path = Except.ok size →
      size ≤ MAX_MEDIA_SIZE → mime_from_path path = Except.error e →
      upload_media pathExists metadata net path = Except.error e) ∧
    (mime_from_path "img.bmp" =
      Except.error "Unsupported image format '.bmp'. Allowed: jpeg, png, gif, webp") := by
  refine ⟨?_, ?_, ?_, rfl⟩
  · intro h
    simp [upload_media, h]
  · intro size h1 h2 h3
    refine ⟨?_, rfl⟩
    simp [upload_media, h1, h2, h3]
  · intro size e h1 h2 h3 h4
    have h3n : ¬ (size > MAX_MEDIA_SIZE) := Nat.not_lt.mpr h3
    simp [upload_media, h1, h2, h3n, h4]

/-- Witness for C7: a missing path, an oversized file and a `.bmp` file at
concrete oracles. -/
theorem upload_media_validation_witness :
    upload_media (fun _ => false) (fun _ => Except.error "io") (fun _ _ => Except.error "net")
      "x.png" = Except.error ("File not found: " ++ "x.png") ∧
    upload_media (fun _ => true) (fun _ => Except.ok 6000000) (fun _ _ => Except.error "net")
      "x.png" = Except.error ("File too large: " ++ toString 6000000 ++ " bytes (max " ++
        toString (MAX_MEDIA_SIZE / (1024 * 1024)) ++ "MB)") ∧
    upload_media (fun _ => true) (fun _ => Except.ok 100) (fun _ _ => Except.error "net")
      "img.bmp" =
      Except.error "Unsupported image format '.bmp'. Allowed: jpeg, png, gif, webp" :=
  ⟨(upload_media_validation (fun _ => false) (fun _ => Except.error "io")
      (fun _ _ => Except.error "net") "x.png").1 rfl,
   ((upload_media_validation (fun _ => true) (fun _ => Except.ok 6000000)
      (fun _ _ => Except.error "net") "x.png").2.1 6000000 rfl rfl (by decide)).1,
   (upload_media_validation (fun _ => true) (fun _ => Except.ok 100)
      (fun _ _ => Except.error "net") "img.bmp").2.2.1 100
      "Unsupported image format '.bmp'. Allowed: jpeg, png, gif, webp" rfl rfl (by decide) rfl⟩

/-- C10: extension matching is case-insensitive — for every path whose
extension ASCII-lowercases to one of the five recognized extensions, the
MIME lookup succeeds and returns the same MIME type as a path that carries
the all-lowercase extension itself. -/
theorem mime_case_insensitive (path : String) (low : List Char)
    (hmem : low ∈ ([['j','p','g'], ['j','p','e','g'], ['p','n','g'],
      ['g','i','f'], ['w','e','b','p']] : List (List Char)))
    (hvar : (rustExtension path).map Char.toLower = low) :
    ∃ m, mime_from_path path = Except.ok m ∧
      mime_from_path (String.mk ('f' :: '.' :: low)) = Except.ok m := by
  have hp : mime_from_path path = mime_from_ext (String.mk low) := by
    rw [mime_from_path, hvar]
  fin_cases hmem
  · exact ⟨"image/jpeg", by rw [hp]; rfl, rfl⟩
  · exact ⟨"image/jpeg", by rw [hp]; rfl, rfl⟩
  · exact ⟨"image/png", by rw [hp]; rfl, rfl⟩
  · exact ⟨"image/gif", by rw [hp]; rfl, rfl⟩
  · exact ⟨"image/webp", by rw [hp]; rfl, rfl⟩

/-- Witness for C10 at the concrete path "photo.JPeG". -/
theorem mime_case_insensitive_witness :
    ∃ m, mime_from_path "photo.JPeG" = Except.ok m ∧
      mime_from_path (String.mk ('f' :: '.' :: ['j','p','e','g'])) = Except.ok m :=
  mime_case_insensitive "photo.JPeG" ['j','p','e','g'] (by decide) (by decide)

/-- Model of `MeData` from `src/api.rs`: the authenticated account's profile. -/
structure MeData where
  id : String
  name : String
  username : String
  deriving DecidableEq

/-- Model of `PostXServer::ensure_username` from `src/server.rs`, with the shared
`cached_username` slot passed as explicit state and the signed `get_me`
network call as an oracle (its outcome for this request).  Returns the
answer and the new cache contents: a populated cache is returned as is
without consulting the oracle; otherwise a successful fetch stores and
returns the username, and a failed fetch returns the error leaving the
cache unchanged. -/
def ensure_username (getMe : Except String MeData) (cached : Option String) :
    Except String String × Option String :=
  match cached with
  | some username => (Except.ok username, some username)
  | none =>
    match getMe with
    | Except.ok me => (Except.ok me.username, some me.username)
    | Except.error e => (Except.error e, none)

/-- The `get_me` tool handler from `src/server.rs`: always performs the
fetch; on success it also refreshes the cached username, on failure it
returns the error and leaves the cache unchanged. -/
def get_me_tool (getMe : Except String MeData) (cached : Option String) :
    Except String MeData × Option String :=
  match getMe with
  | Except.ok me => (Except.ok me, some me.username)
  | Except.error e => (Except.error e, cached)

/-- C8: the identity cache is written only by a successful fetch.  A
populated cache answers without consulting the network oracle; after a
successful fetch the cache holds the username and a subsequent request
returns it for every oracle (no second call); after a failed fetch the
error is returned, the cache stays empty, and a subsequent request runs the
fetch again (it behaves exactly like a fresh one); and whenever either
`ensure_username` or the `get_me` tool changes the cache, the fetch
succeeded and the new contents is that fetch's username. -/
theorem identity_cache_spec :
    (∀ getMe u, ensure_username getMe (some u) = (Except.ok u, some u)) ∧
    (∀ me, ensure_username (Except.ok me) none = (Except.ok me.username, some me.username)) ∧
    (∀ me getMe2, ensure_username getMe2 (ensure_username (Except.ok me) none).2 =
      (Except.ok me.username, some me.username)) ∧
    (∀ e, ensure_username (Except.error e) none = (Except.error e, none)) ∧
    (∀ e getMe2, ensure_username getMe2 (ensure_username (Except.error e) none).2 =
      ensure_username getMe2 none) ∧
    (∀ getMe c, (ensure_username getMe c).2 ≠ c →
      ∃ me, getMe = Except.ok me ∧ c = none ∧
        (ensure_username getMe c).2 = some me.username) ∧
    (∀ getMe c, (get_me_tool getMe c).2 ≠ c →
      ∃ me, getMe = Except.ok me ∧ (get_me_tool getMe c).2 = some me.username) := by
  refine ⟨fun getMe u => rfl, fun me => rfl, fun me getMe2 => rfl, fun e => rfl,
    fun e getMe2 => rfl, ?_, ?_⟩
  · intro getMe c hch
    cases c with
    | some u => exact absurd rfl hch
    | none =>
      cases getMe with
      | ok me => exact ⟨me, rfl, rfl, rfl⟩
      | error e => exact absurd rfl hch
  · intro getMe c hch
    cases getMe with
    | ok me => exact ⟨me, rfl, rfl⟩
    | error e => exact absurd rfl hch

/-- Witness for C8: a concrete successful fetch writes the cache. -/
theorem identity_cache_spec_witness :
    ∃ me, (Except.ok ⟨"1", "n", "user"⟩ : Except String MeData) = Except.ok me ∧
      (none : Option String) = none ∧
      (ensure_username (Except.ok ⟨"1", "n", "user"⟩) none).2 = some me.username :=
  identity_cache_spec.2.2.2.2.2.1 (Except.ok ⟨"1", "n", "user"⟩) none (by simp [ensure_username])
